import Mathlib

/-!
Verification development for the parallel genome search program `psg.c`.

The program loads FASTA data into one contiguous byte buffer and counts
occurrences of a literal pattern with `num_threads` pthreads, each scanning
`chunk_size = cur_length / num_threads` start offsets.

Modelling choices, from the source:

* Bytes are modelled as `Char`; the buffer the threads read is a `List Char`.
  A thread may dereference bytes past the buffer's valid length
  (`strncmp` is not clamped against `fasta->cur_length`), so theorems about
  whole-program runs take the memory as `s ++ junk`, where `s` is the valid
  data (`cur_length = s.length`) and `junk` is whatever sits in the
  allocation past the valid data.
* `strncmp(cur_location, pattern, pattern_length) == 0` with
  `pattern_length = strlen(pattern)`: the pattern holds no NUL in its first
  `pattern_length` bytes, so the comparison succeeds exactly when the
  `pattern_length` bytes of memory starting at the tested offset equal the
  pattern bytes (a NUL in memory merely causes a mismatch).  Reading where
  the model list runs out yields a short slice, hence a mismatch.
* The per-thread while loop of `parallel_match` (src/psg.c:196-205) runs
  from `ptr` to `ptr + chunk_size - 1` inclusive: exactly `chunk_size`
  iterations, each incrementing `local_trial` and testing one offset.
* `main` (src/psg.c:296-305) sets `chunk_size = fasta->cur_length / num_threads`
  and hands thread `i` the pointer `fasta->sequence + i * chunk_size`.
* The two globals `match_count` and `trial_count` start at 0 and are only
  updated under `shared_counter_mutex`, once per thread (src/psg.c:207-211);
  the lock serialises the merges in an arbitrary order, modelled as a fold
  over an arbitrary permutation of the local results.
-/

/-- Model of `strncmp(mem + o, pattern, pattern.length) == 0` as used at
src/psg.c:198: true iff the `pattern.length` bytes of memory starting at
offset `o` equal the pattern bytes.  If fewer than `pattern.length` bytes of
memory remain, the slice is short and the comparison fails. -/
def strncmp_eq (mem pat : List Char) (o : Nat) : Bool :=
  (mem.drop o).take pat.length == pat

/-- The while loop of `parallel_match` (src/psg.c:196-205): starting from
offset `o` with accumulated `(local_count, local_trial)`, perform `n` more
iterations.  Each iteration increments the trial counter, tests the current
offset with `strncmp`, and advances by one byte. -/
def scan_loop (mem pat : List Char) : Nat → Nat → Nat × Nat → Nat × Nat
  | 0, _, acc => acc
  | n + 1, o, acc =>
      scan_loop mem pat n (o + 1)
        (if strncmp_eq mem pat o then (acc.1 + 1, acc.2 + 1) else (acc.1, acc.2 + 1))

/-- One worker of `parallel_match` (src/psg.c:187-214): scans the
`chunk_size` start offsets beginning at `start` and returns its local
`(match count, trial count)` pair. -/
def parallel_match (mem pat : List Char) (chunk_size start : Nat) : Nat × Nat :=
  scan_loop mem pat chunk_size start (0, 0)

/-- The start offsets a worker with range start `start` and size `chunk_size`
tests: `start, start + 1, ..., start + chunk_size - 1` (the loop of
src/psg.c:196-205 walks `cur_location` from `ptr` to `ptr + chunk_size - 1`). -/
def tested_offsets (chunk_size start : Nat) : List Nat :=
  (List.range chunk_size).map (start + ·)

/-- Launching `w` workers with a fixed `chunk_size`, worker `i` at start
offset `i * chunk_size` (src/psg.c:301-305: `match_ptr` starts at
`fasta->sequence` and advances by `chunk_size` per thread), and summing the
local results (the mutex-protected merges of src/psg.c:207-211). -/
def parallel_match_launch (mem pat : List Char) (chunk_size w : Nat) : Nat × Nat :=
  (List.range w).foldl
    (fun tot i =>
      let loc := parallel_match mem pat chunk_size (i * chunk_size)
      (tot.1 + loc.1, tot.2 + loc.2))
    (0, 0)

/-- A whole run of the matching phase of `main` (src/psg.c:296-310):
`chunk_size = L / w` where `L = fasta->cur_length`, one worker per chunk,
aggregated `(match_count, trial_count)`. -/
def parallel_match_run (mem pat : List Char) (w L : Nat) : Nat × Nat :=
  parallel_match_launch mem pat (L / w) w

/-- Number of offsets in `[o, o + n)` at which the pattern matches memory. -/
def match_count_in (mem pat : List Char) : Nat → Nat → Nat
  | _, 0 => 0
  | o, n + 1 => (if strncmp_eq mem pat o then 1 else 0) + match_count_in mem pat (o + 1) n

/-- Modelled on the spec's words "a single-threaded linear scan of the entire
buffer": the scan routine applied to the whole buffer `[0, L)` as one range.
This is exactly what `main` computes with `num_threads = 1`
(`chunk_size = L / 1 = L`, one worker at offset 0). -/
def single_thread_scan_count (mem pat : List Char) (L : Nat) : Nat :=
  (parallel_match mem pat L 0).1

/-- The shared totals of src/psg.c:35-36 (`match_count`, `trial_count`),
globals initialized to zero. -/
structure aggregate_totals where
  match_count : Nat
  trial_count : Nat
deriving DecidableEq

/-- Initial value of the shared totals (src/psg.c:35-36: both globals are 0). -/
def totals_init : aggregate_totals := ⟨0, 0⟩

/-- One merge of a worker's local `(count, trial)` pair into the shared
totals, performed under `shared_counter_mutex` (src/psg.c:208-211). -/
def merge (t : aggregate_totals) (loc : Nat × Nat) : aggregate_totals :=
  ⟨t.match_count + loc.1, t.trial_count + loc.2⟩

/-- Merging a list of local results into the initially-zero totals, in the
order the workers happen to acquire the mutex.  The mutex serialises the
merges, so a run is a fold over some permutation of the workers' results. -/
def run_merges (locals : List (Nat × Nat)) : aggregate_totals :=
  locals.foldl merge totals_init

/-- The global state a scan worker can see: the FASTA buffer contents, the
pattern, `chunk_size`, and the two shared counters (src/psg.c:31-37). -/
structure psg_state where
  sequence : List Char
  pattern : List Char
  chunk_size : Nat
  match_count : Nat
  trial_count : Nat

/-- One complete `parallel_match` thread (src/psg.c:187-214) as a transformer
of the global state: scan the `chunk_size` offsets from `start`, then add the
local counters to the shared ones under the mutex.  The buffer, the pattern
and `chunk_size` are only read. -/
def parallel_match_thread (st : psg_state) (start : Nat) : psg_state :=
  let loc := parallel_match st.sequence st.pattern st.chunk_size start
  { st with
      match_count := st.match_count + loc.1
      trial_count := st.trial_count + loc.2 }

/-- Value of `line_buffer_length` (src/psg.c:21). -/
def line_buffer_length : Nat := 1024

/-- One line as returned by `gzgets` in `fasta_read_file` (src/psg.c:82):
either a header line beginning with the annotation marker, which is skipped,
or a data line whose bytes (newline excluded) are copied into the buffer.
Lines are modelled as newline-terminated and shorter than the line buffer,
the cases the copy loop of src/psg.c:90-93 handles. -/
inductive fasta_line where
  | header : fasta_line
  | data : List Char → fasta_line
deriving DecidableEq

/-- The bytes a single line contributes to the buffer. -/
def line_bytes : fasta_line → List Char
  | fasta_line.header => []
  | fasta_line.data b => b

/-- The bytes a list of lines contributes to the buffer. -/
def kept_bytes : List fasta_line → List Char
  | [] => []
  | l :: rest => line_bytes l ++ kept_bytes rest

/-- One iteration of the read loop of `fasta_read_file` (src/psg.c:82-100):
first the line's data bytes are copied (headers contribute nothing), and only
then is the capacity check `cur_length + line_buffer_length > max_length`
performed; `none` models the `exit(1)` of src/psg.c:95-99. -/
def fasta_read_line (max_length : Nat) (cur : List Char) (l : fasta_line) :
    Option (List Char) :=
  let cur' := cur ++ line_bytes l
  if cur'.length + line_buffer_length > max_length then none else some cur'

/-- The read loop of `fasta_read_file` (src/psg.c:68-108) over the lines of a
file, starting from the bytes `cur` already in the buffer: `some` of the new
buffer contents on success, `none` when the buffer-too-small exit fires. -/
def fasta_read_file (max_length : Nat) (cur : List Char) :
    List fasta_line → Option (List Char)
  | [] => some cur
  | l :: rest =>
      match fasta_read_line max_length cur l with
      | none => none
      | some cur' => fasta_read_file max_length cur' rest

/-- The configuration `main` assembles from the command line
(src/psg.c:249-274): `fasta_max_length` from `-b`/`-m`/`-g` via `atol`,
`pattern` from `-p` (NULL when absent), `num_threads` from `-n` via `atoi`. -/
structure cli_config where
  fasta_max_length : Int
  pattern : Option (List Char)
  num_threads : Int

/-- The only configuration validation `main` performs before partitioning
(src/psg.c:278-280): `usage()` is called iff `fasta_max_length == 0` or
`pattern == NULL`.  `num_threads` is never examined. -/
def config_rejected (c : cli_config) : Bool :=
  (c.fasta_max_length == 0) || c.pattern.isNone

/-- The chunk-size computation of src/psg.c:296, reached whenever the
configuration is not rejected (C integer division; `num_threads = 0` makes
it a division by zero, undefined behavior in C). -/
def main_chunk_size (cur_length num_threads : Int) : Int :=
  cur_length / num_threads

lemma scan_loop_eq (mem pat : List Char) :
    ∀ (n o : Nat) (acc : Nat × Nat), scan_loop mem pat n o acc
      = (acc.1 + match_count_in mem pat o n, acc.2 + n) := by
  intro n
  induction n with
  | zero => intro o acc; simp [scan_loop, match_count_in]
  | succ k ih =>
      intro o acc
      by_cases h : strncmp_eq mem pat o <;>
        simp [scan_loop, match_count_in, h, ih, Prod.ext_iff] <;> try omega

lemma parallel_match_eq (mem pat : List Char) (chunk_size start : Nat) :
    parallel_match mem pat chunk_size start
      = (match_count_in mem pat start chunk_size, chunk_size) := by
  simp [parallel_match, scan_loop_eq]

lemma match_count_in_add (mem pat : List Char) :
    ∀ (m n o : Nat), match_count_in mem pat o (m + n)
      = match_count_in mem pat o m + match_count_in mem pat (o + m) n := by
  intro m
  induction m with
  | zero => intro n o; simp [match_count_in]
  | succ k ih =>
      intro n o
      have h1 : k + 1 + n = (k + n) + 1 := by omega
      have h2 : o + (k + 1) = (o + 1) + k := by omega
      rw [h1]
      simp only [match_count_in, ih, h2]
      try omega

lemma match_count_in_countP (mem pat : List Char) :
    ∀ (n o : Nat), match_count_in mem pat o n
      = (tested_offsets n o).countP (fun x => strncmp_eq mem pat x) := by
  intro n
  induction n with
  | zero => intro o; simp [match_count_in, tested_offsets]
  | succ k ih =>
      intro o
      have h1 : match_count_in mem pat o (k + 1)
          = match_count_in mem pat o k + match_count_in mem pat (o + k) 1 :=
        match_count_in_add mem pat k 1 o
      have h2 : match_count_in mem pat (o + k) 1
          = (if strncmp_eq mem pat (o + k) then 1 else 0) := by
        simp [match_count_in]
      rw [h1, h2, ih]
      simp [tested_offsets, List.range_succ, List.countP_append, List.countP_cons]
      try omega

lemma parallel_match_launch_eq (mem pat : List Char) (chunk_size : Nat) :
    ∀ w, parallel_match_launch mem pat chunk_size w
      = (match_count_in mem pat 0 (w * chunk_size), w * chunk_size) := by
  intro w
  induction w with
  | zero => simp [parallel_match_launch, match_count_in]
  | succ k ih =>
      have step : parallel_match_launch mem pat chunk_size (k + 1)
          = ((parallel_match_launch mem pat chunk_size k).1
               + (parallel_match mem pat chunk_size (k * chunk_size)).1,
             (parallel_match_launch mem pat chunk_size k).2
               + (parallel_match mem pat chunk_size (k * chunk_size)).2) := by
        simp [parallel_match_launch, List.range_succ]
      rw [step, ih, parallel_match_eq]
      have h : (k + 1) * chunk_size = k * chunk_size + chunk_size := by ring
      rw [h, match_count_in_add]
      simp

lemma parallel_match_run_eq (mem pat : List Char) (w L : Nat) :
    parallel_match_run mem pat w L
      = (match_count_in mem pat 0 (w * (L / w)), w * (L / w)) := by
  simp [parallel_match_run, parallel_match_launch_eq]

lemma mem_tested_offsets (chunk_size start o : Nat) :
    o ∈ tested_offsets chunk_size start ↔ start ≤ o ∧ o < start + chunk_size := by
  simp only [tested_offsets, List.mem_map, List.mem_range]
  constructor
  · rintro ⟨k, hk, rfl⟩
    omega
  · intro h
    exact ⟨o - start, by omega, by omega⟩

lemma strncmp_eq_false_of_short (mem pat : List Char) (o : Nat)
    (h : mem.length < pat.length) : strncmp_eq mem pat o = false := by
  unfold strncmp_eq
  rw [beq_eq_false_iff_ne]
  intro heq
  have hlen := congrArg List.length heq
  simp [List.length_take, List.length_drop] at hlen
  omega

lemma match_count_in_zero_of_short (mem pat : List Char)
    (h : mem.length < pat.length) :
    ∀ n o, match_count_in mem pat o n = 0 := by
  intro n
  induction n with
  | zero => intro o; simp [match_count_in]
  | succ k ih =>
      intro o
      simp [match_count_in, strncmp_eq_false_of_short mem pat o h, ih]

lemma foldl_merge_eq (l : List (Nat × Nat)) :
    ∀ t : aggregate_totals,
      l.foldl merge t
        = ⟨t.match_count + (l.map Prod.fst).sum,
           t.trial_count + (l.map Prod.snd).sum⟩ := by
  induction l with
  | nil => intro t; simp
  | cons a rest ih =>
      intro t
      simp only [List.foldl_cons, ih, merge, List.map_cons, List.sum_cons,
        aggregate_totals.mk.injEq]
      constructor <;> omega

lemma fasta_read_file_some (max_length : Nat) :
    ∀ (lines : List fasta_line) (cur res : List Char),
      fasta_read_file max_length cur lines = some res →
        res = cur ++ kept_bytes lines := by
  intro lines
  induction lines with
  | nil =>
      intro cur res h
      simp [fasta_read_file] at h
      simp [kept_bytes, h]
  | cons l rest ih =>
      intro cur res h
      by_cases hc : max_length < cur.length + (line_bytes l).length + line_buffer_length
      · simp [fasta_read_file, fasta_read_line, hc] at h
      · have hline : fasta_read_line max_length cur l = some (cur ++ line_bytes l) := by
          simp [fasta_read_line]
          omega
        have hunf : fasta_read_file max_length cur (l :: rest)
            = fasta_read_file max_length (cur ++ line_bytes l) rest := by
          simp [fasta_read_file, hline]
        rw [hunf] at h
        have hres := ih (cur ++ line_bytes l) res h
        simp only [kept_bytes, List.append_assoc] at hres ⊢
        exact hres

lemma fasta_read_file_none_iff (max_length : Nat) :
    ∀ (lines : List fasta_line) (cur : List Char),
      fasta_read_file max_length cur lines = none ↔
        ∃ n, n < lines.length ∧
          (cur ++ kept_bytes (lines.take (n + 1))).length + line_buffer_length
            > max_length := by
  intro lines
  induction lines with
  | nil => intro cur; simp [fasta_read_file]
  | cons l rest ih =>
      intro cur
      by_cases hc : max_length < cur.length + (line_bytes l).length + line_buffer_length
      · constructor
        · intro _
          refine ⟨0, by simp, ?_⟩
          simp only [List.take_succ_cons, List.take_zero, kept_bytes,
            List.length_append, List.length_nil]
          omega
        · intro _
          simp [fasta_read_file, fasta_read_line, hc]
      · have hline : fasta_read_line max_length cur l = some (cur ++ line_bytes l) := by
          simp [fasta_read_line]
          omega
        have hunf : fasta_read_file max_length cur (l :: rest)
            = fasta_read_file max_length (cur ++ line_bytes l) rest := by
          simp [fasta_read_file, hline]
        rw [hunf, ih]
        constructor
        · rintro ⟨n, hn, hgt⟩
          refine ⟨n + 1, by simpa using hn, ?_⟩
          simp only [List.take_succ_cons, kept_bytes, List.length_append] at hgt ⊢
          omega
        · rintro ⟨n, hn, hgt⟩
          cases n with
          | zero =>
              exfalso
              simp only [List.take_succ_cons, List.take_zero, kept_bytes,
                List.length_append, List.length_nil] at hgt
              omega
          | succ m =>
              refine ⟨m, by simpa using hn, ?_⟩
              simp only [List.take_succ_cons, kept_bytes, List.length_append] at hgt ⊢
              omega

lemma tested_offsets_zero (n : Nat) : tested_offsets n 0 = List.range n := by
  simp [tested_offsets]

/-- C1: for every buffer whose length is evenly divisible by the worker count
and every non-empty pattern, the aggregated match count produced by one scan
worker per chunk equals the match count of a single-threaded linear scan of
the entire buffer — which is exactly what the program itself computes with
one worker, as the second conjunct records. -/
theorem parallel_equals_single_thread (s junk pat : List Char) (w : Nat)
    (hpat : pat ≠ []) (hw : 0 < w) (hdvd : s.length % w = 0) :
    (parallel_match_run (s ++ junk) pat w s.length).1
      = single_thread_scan_count (s ++ junk) pat s.length ∧
    single_thread_scan_count (s ++ junk) pat s.length
      = (parallel_match_run (s ++ junk) pat 1 s.length).1 := by
  have hwL : w * (s.length / w) = s.length :=
    Nat.mul_div_cancel' (Nat.dvd_of_mod_eq_zero hdvd)
  have h1 : (parallel_match_run (s ++ junk) pat w s.length).1
      = match_count_in (s ++ junk) pat 0 s.length := by
    rw [parallel_match_run_eq]
    simp [hwL]
  have h2 : single_thread_scan_count (s ++ junk) pat s.length
      = match_count_in (s ++ junk) pat 0 s.length := by
    simp [single_thread_scan_count, parallel_match_eq]
  have h3 : (parallel_match_run (s ++ junk) pat 1 s.length).1
      = match_count_in (s ++ junk) pat 0 s.length := by
    rw [parallel_match_run_eq]
    simp
  exact ⟨h1.trans h2.symm, h2.trans h3.symm⟩

/-- Witness for C1: buffer "ACGTACGT" (length 8, divisible by 2), no junk
past the end, pattern "ACGT", two workers. -/
theorem parallel_equals_single_thread_witness :
    (parallel_match_run ("ACGTACGT".data ++ []) "ACGT".data 2
        ("ACGTACGT".data).length).1
      = single_thread_scan_count ("ACGTACGT".data ++ []) "ACGT".data
          ("ACGTACGT".data).length ∧
    single_thread_scan_count ("ACGTACGT".data ++ []) "ACGT".data
        ("ACGTACGT".data).length
      = (parallel_match_run ("ACGTACGT".data ++ []) "ACGT".data 1
          ("ACGTACGT".data).length).1 :=
  parallel_equals_single_thread "ACGTACGT".data [] "ACGT".data 2
    (by decide) (by decide) (by decide)

/-- C2: refuted by the code (code bug).  The worker's final tested start
offset is `start + chunk_size - 1` regardless of the pattern length — there
is no clamp `offset + p ≤ length` (src/psg.c:192 sets
`last_location = ptr + chunk_size - 1` and the loop tests every offset up to
it).  With buffer "AAAA" (length 4), pattern "AAB" (p = 3) and one worker,
offset 3 is tested although 3 + 3 > 4, and the reported match count depends
on the memory that happens to sit past the buffer's end: a 'B' byte there
yields one match, nothing there yields none. -/
theorem scan_reads_past_buffer_end :
    (parallel_match_run ("AAAA".data ++ "B".data) "AAB".data 1 4).1 = 1 ∧
    (parallel_match_run ("AAAA".data ++ []) "AAB".data 1 4).1 = 0 ∧
    3 ∈ tested_offsets (4 / 1) (0 * (4 / 1)) ∧
    3 + ("AAB".data).length > 4 := by
  decide

/-- C3: counterexample.  Buffer "AACGTACGTAA" (length 11), pattern "ACGT",
one worker — worker count 1 divides length 11 evenly — yet the aggregated
attempt count is chunk_size = 11, not length - pattern_length + 1 = 8: the
loop of src/psg.c:196-205 always runs exactly chunk_size iterations. -/
theorem attempt_count_example_refuted :
    (parallel_match_run ("AACGTACGTAA".data ++ []) "ACGT".data 1 11).2 = 11 ∧
    (11 : Nat) ≠ 8 := by
  decide

/-- C3 amended: the aggregated attempt count always equals the sum over the
workers of their chunk_size = L / w attempts, i.e. w * (L / w) — also when
the worker count divides the length evenly, since no clamping is applied. -/
theorem attempt_count_conservation (mem pat : List Char) (w L : Nat) :
    (parallel_match_run mem pat w L).2 = w * (L / w) := by
  rw [parallel_match_run_eq]

/-- C4: an occurrence whose start offset lies in one worker's range is
counted exactly once in the aggregate, by the worker owning the start offset,
even when its bytes extend past the range end: the aggregated match count
equals the number of matching start offsets in [0, w * chunk_size) — each
matching offset counted once — and each worker's local count is exactly the
number of matching offsets among its own tested start offsets, the match test
reading the shared memory with no regard to the range end. -/
theorem boundary_match_exactly_once (s junk pat : List Char) (w : Nat) :
    (parallel_match_run (s ++ junk) pat w s.length).1
      = (List.range (w * (s.length / w))).countP
          (fun o => strncmp_eq (s ++ junk) pat o) ∧
    ∀ i, i < w →
      (parallel_match (s ++ junk) pat (s.length / w) (i * (s.length / w))).1
        = (tested_offsets (s.length / w) (i * (s.length / w))).countP
            (fun o => strncmp_eq (s ++ junk) pat o) := by
  constructor
  · rw [parallel_match_run_eq]
    simp [match_count_in_countP, tested_offsets_zero]
  · intro i hi
    rw [parallel_match_eq]
    simp [match_count_in_countP]

/-- Witness for C4: buffer "AACGTACGTA" (length 10), byte "X" past the end,
pattern "ACGT", two workers, instantiated for worker 1. -/
theorem boundary_match_exactly_once_witness :
    (parallel_match_run ("AACGTACGTA".data ++ "X".data) "ACGT".data 2
        ("AACGTACGTA".data).length).1
      = (List.range (2 * (("AACGTACGTA".data).length / 2))).countP
          (fun o => strncmp_eq ("AACGTACGTA".data ++ "X".data) "ACGT".data o) ∧
    (parallel_match ("AACGTACGTA".data ++ "X".data) "ACGT".data
        (("AACGTACGTA".data).length / 2) (1 * (("AACGTACGTA".data).length / 2))).1
      = (tested_offsets (("AACGTACGTA".data).length / 2)
          (1 * (("AACGTACGTA".data).length / 2))).countP
          (fun o => strncmp_eq ("AACGTACGTA".data ++ "X".data) "ACGT".data o) :=
  ⟨(boundary_match_exactly_once "AACGTACGTA".data "X".data "ACGT".data 2).1,
   (boundary_match_exactly_once "AACGTACGTA".data "X".data "ACGT".data 2).2 1
     (by decide)⟩

/-- C5: the partitioner yields contiguous, non-overlapping, equal-size
ranges: worker i tests exactly the start offsets in
[i * (L / w), (i + 1) * (L / w)), distinct workers' offsets never coincide,
no worker tests any of the trailing L mod w offsets, and the w ranges
together cover exactly w * (L / w) = L - L % w start offsets. -/
theorem chunk_partitioner_ranges (L w : Nat) (hw : 0 < w) :
    (∀ i o, o ∈ tested_offsets (L / w) (i * (L / w)) ↔
        i * (L / w) ≤ o ∧ o < (i + 1) * (L / w)) ∧
    (∀ i j o, i < j → o ∈ tested_offsets (L / w) (i * (L / w)) →
        o ∉ tested_offsets (L / w) (j * (L / w))) ∧
    (∀ o, L - L % w ≤ o → ∀ i, i < w →
        o ∉ tested_offsets (L / w) (i * (L / w))) ∧
    w * (L / w) = L - L % w := by
  have hmod : w * (L / w) + L % w = L := Nat.div_add_mod L w
  refine ⟨?_, ?_, ?_, by omega⟩
  · intro i o
    have hmul : (i + 1) * (L / w) = i * (L / w) + L / w := by ring
    rw [hmul, mem_tested_offsets]
  · intro i j o hij h1 h2
    rw [mem_tested_offsets] at h1 h2
    have hle : (i + 1) * (L / w) ≤ j * (L / w) :=
      mul_le_mul_right' (by omega) (L / w)
    have hmul : (i + 1) * (L / w) = i * (L / w) + L / w := by ring
    omega
  · intro o ho i hiw hmem
    rw [mem_tested_offsets] at hmem
    have hle : (i + 1) * (L / w) ≤ w * (L / w) :=
      mul_le_mul_right' (by omega) (L / w)
    have hmul : (i + 1) * (L / w) = i * (L / w) + L / w := by ring
    omega

/-- Witness for C5 at L = 11, w = 2: offset 7 lies in worker 1's range, and
the two ranges cover 10 = 11 - 11 mod 2 start offsets. -/
theorem chunk_partitioner_ranges_witness :
    (7 ∈ tested_offsets (11 / 2) (1 * (11 / 2)) ↔
        1 * (11 / 2) ≤ 7 ∧ 7 < (1 + 1) * (11 / 2)) ∧
    2 * (11 / 2) = 11 - 11 % 2 :=
  ⟨(chunk_partitioner_ranges 11 2 (by decide)).1 1 7,
   (chunk_partitioner_ranges 11 2 (by decide)).2.2.2⟩

/-- C6: the shared totals start at zero, and after every worker has merged —
in whatever order the mutex happens to serialise the merges, modelled as an
arbitrary permutation of the workers' local results — the total match count
equals the sum of all local match counts and the total attempt count equals
the sum of all local attempt counts, exactly. -/
theorem aggregator_exact_totals (locals merge_order : List (Nat × Nat))
    (hperm : locals.Perm merge_order) :
    totals_init.match_count = 0 ∧ totals_init.trial_count = 0 ∧
    (run_merges merge_order).match_count = (locals.map Prod.fst).sum ∧
    (run_merges merge_order).trial_count = (locals.map Prod.snd).sum := by
  refine ⟨rfl, rfl, ?_, ?_⟩
  · rw [run_merges, foldl_merge_eq]
    simpa [totals_init] using ((hperm.map Prod.fst).sum_eq).symm
  · rw [run_merges, foldl_merge_eq]
    simpa [totals_init] using ((hperm.map Prod.snd).sum_eq).symm

/-- Witness for C6: two workers with local results (2, 5) and (1, 6), merged
in the opposite order. -/
theorem aggregator_exact_totals_witness :
    totals_init.match_count = 0 ∧ totals_init.trial_count = 0 ∧
    (run_merges [(1, 6), (2, 5)]).match_count = ([(2, 5), (1, 6)].map Prod.fst).sum ∧
    (run_merges [(1, 6), (2, 5)]).trial_count = ([(2, 5), (1, 6)].map Prod.snd).sum :=
  aggregator_exact_totals [(2, 5), (1, 6)] [(1, 6), (2, 5)] (List.Perm.swap _ _ _)

/-- C7: counterexample.  With 1025 bytes reserved and a single two-byte data
line, ingestion exits fatally — the check of src/psg.c:95-99 fires because
cur_length + line_buffer_length = 2 + 1024 > 1025 — although the append did
not exceed the reserved capacity, so failing is not equivalent to "the
append would exceed capacity". -/
theorem fasta_append_refuted :
    fasta_read_file 1025 [] [fasta_line.data ("AC".data)] = none ∧
    ("AC".data).length ≤ 1025 := by
  decide

/-- C7 amended: the read loop aborts fatally iff after copying some line the
buffer length plus line_buffer_length (1024) exceeds max_length — a
conservative check that can fire although capacity was not exceeded, and
that runs only after the line's bytes were already copied — and on success
the buffer holds every kept byte: data is never truncated or silently
dropped. -/
theorem fasta_append_behavior (max_length : Nat) (lines : List fasta_line)
    (cur : List Char) :
    (∀ res, fasta_read_file max_length cur lines = some res →
        res = cur ++ kept_bytes lines) ∧
    (fasta_read_file max_length cur lines = none ↔
      ∃ n, n < lines.length ∧
        (cur ++ kept_bytes (lines.take (n + 1))).length + line_buffer_length
          > max_length) :=
  ⟨fun res h => fasta_read_file_some max_length lines cur res h,
   fasta_read_file_none_iff max_length lines cur⟩

/-- Witness for C7's amended statement: with ample capacity, one data line
"ACGT" ends up appended in full. -/
theorem fasta_append_behavior_witness :
    "ACGT".data = [] ++ kept_bytes [fasta_line.data ("ACGT".data)] :=
  (fasta_append_behavior 2000 [fasta_line.data ("ACGT".data)] []).1
    "ACGT".data (by decide)

/-- C8: counterexample.  Buffer "AC" (length 2), pattern "ACG" (length 3 > 2),
one worker: the code performs chunk_size = 2 attempts, not zero, and with the
bytes "GT" sitting past the buffer's end it even reports a match. -/
theorem pattern_longer_than_buffer_refuted :
    (parallel_match_run ("AC".data ++ "GT".data) "ACG".data 1 2).2 = 2 ∧
    (parallel_match_run ("AC".data ++ "GT".data) "ACG".data 1 2).1 = 1 := by
  decide

/-- C8 amended: the scan always performs w * (L / w) attempts regardless of
the pattern length; the match count is guaranteed to be zero only when the
pattern is longer than the whole memory the workers can read (valid data
plus whatever follows it in the allocation). -/
theorem pattern_longer_than_memory (mem pat : List Char) (w L : Nat)
    (h : mem.length < pat.length) :
    (parallel_match_run mem pat w L).1 = 0 ∧
    (parallel_match_run mem pat w L).2 = w * (L / w) := by
  rw [parallel_match_run_eq]
  exact ⟨match_count_in_zero_of_short mem pat h _ _, rfl⟩

/-- Witness for C8's amended statement: memory "AC", pattern "ACGTX". -/
theorem pattern_longer_than_memory_witness :
    (parallel_match_run "AC".data "ACGTX".data 1 2).1 = 0 ∧
    (parallel_match_run "AC".data "ACGTX".data 1 2).2 = 1 * (2 / 1) :=
  pattern_longer_than_memory "AC".data "ACGTX".data 1 2 (by decide)

/-- C9: refuted by the code (code bug).  The only configuration check before
partitioning is src/psg.c:278 (`fasta_max_length == 0 || pattern == NULL`);
a worker count of zero — or one far exceeding any buffer length — passes it,
so `chunk_size = fasta->cur_length / num_threads` (src/psg.c:296) is reached
with `num_threads = 0`, an integer division by zero in C. -/
theorem worker_count_not_validated :
    config_rejected ⟨100, some ("ACGT".data), 0⟩ = false ∧
    config_rejected ⟨100, some ("ACGT".data), 1000000⟩ = false := by
  decide

/-- C10: a scan worker mutates only the two shared counters: after a worker
runs, the buffer's contents (hence its length), the pattern and the chunk
size are exactly what they were when the worker started, and the counters
have grown by exactly the worker's local results. -/
theorem worker_frame_condition (st : psg_state) (start : Nat) :
    (parallel_match_thread st start).sequence = st.sequence ∧
    (parallel_match_thread st start).pattern = st.pattern ∧
    (parallel_match_thread st start).chunk_size = st.chunk_size ∧
    (parallel_match_thread st start).match_count
      = st.match_count
        + (parallel_match st.sequence st.pattern st.chunk_size start).1 ∧
    (parallel_match_thread st start).trial_count
      = st.trial_count
        + (parallel_match st.sequence st.pattern st.chunk_size start).2 :=
  ⟨rfl, rfl, rfl, rfl, rfl⟩
